import Mathlib

/-!
Verification of the positional JSON document model of the `todd` terminal
JSON editor, as a shallow embedding of the Rust source.

Conventions used throughout:
* `serde_json::Value` becomes the inductive `Json`; objects keep serde's
  `preserve_order` ordered-map (`IndexMap`) semantics, modelled as an
  insertion-ordered association list with unique keys maintained by the
  map operations.
* JSON numbers are represented by their literal text (the claims under
  verification only ever compare numbers built identically, so the
  numeric interpretation of the literal is never consulted).
* `usize` is modelled as `Nat`.  Saturating subtraction coincides with
  `Nat` truncated subtraction.  Plain (wrapping in release builds)
  subtraction is modelled as `Nat` truncated subtraction wherever the
  operands provably cannot underflow on the reachable states, and with an
  explicit wrap modulo `2 ^ 64` in the one place where underflow is
  reachable (`map.len() - 2` in `insert_new_data_from_user_input`).
* A Rust panic (failed `unwrap`, out-of-bounds `shift_insert` / `Vec::insert`)
  is modelled by `Option`, with `none` meaning "the operation panics".
-/

/-- The JSON tree (`serde_json::Value` with the `preserve_order` feature):
objects are insertion-ordered key/value sequences. -/
inductive Json where
  | null : Json
  | bool (b : Bool) : Json
  | num (lit : String) : Json
  | str (s : String) : Json
  | arr (elems : List Json) : Json
  | obj (entries : List (String × Json)) : Json
deriving Repr

/-- Mirrors `value.is_object() || value.is_array()`. -/
def Json.isContainer : Json → Bool
  | .obj _ => true
  | .arr _ => true
  | _ => false

/-- Mirrors `value.is_array()`. -/
def Json.isArrValue : Json → Bool
  | .arr _ => true
  | _ => false

/-- One display row (`struct ValuePair` in `app.rs`). -/
structure ValuePair where
  indentation : Nat
  key : String
  value : Option Json
  is_array_value : Bool
deriving Repr

/-! ## Flattener (`App::insert_data_to_tree` / `App::walk_data_tree_for_json`)

The source appends rows to a `&mut Vec<ValuePair>` and threads a
`&mut usize` lines counter; the model returns the emitted rows together
with the counter increment of the call.  `walk_entries` / `walk_elems`
are the source's `for` loops over object entries / array elements.  The
object branch of `walk_data_tree_for_json` calls
`insert_data_to_tree(value, indentation_counter)`, which (for an object)
is exactly `walk_entries es (ind + 1)`; that call is inlined here so the
recursion stays structural, and `insert_data_to_tree` is recovered as a
wrapper below (`insert_obj_unfold` re-checks the equation). -/

mutual

def walk_entries : List (String × Json) → Nat → List ValuePair × Nat
  | [], _ => ([], 0)
  | (k, v) :: rest, ind =>
    let r1 := walk_data_tree_for_json k v ind
    let r2 := walk_entries rest ind
    (r1.1 ++ r2.1, r1.2 + r2.2)

def walk_elems : List Json → Nat → List ValuePair × Nat
  | [], _ => ([], 0)
  | v :: rest, ind =>
    let r1 := walk_data_tree_for_json "" v ind
    let r2 := walk_elems rest ind
    (r1.1 ++ r2.1, r1.2 + r2.2)

def walk_data_tree_for_json (key : String) (value : Json) (ind : Nat) :
    List ValuePair × Nat :=
  match value with
  | .obj es =>
    if es.length = 0 then ([⟨ind, key, none, false⟩], 1)
    else
      let r := walk_entries es (ind + 1)
      (⟨ind, key, none, false⟩ :: r.1, 1 + r.2)
  | .arr xs =>
    let r := walk_elems xs (ind + 1)
    (⟨ind, key, none, false⟩ :: r.1, 1 + r.2)
  | v => ([⟨ind, key, some v, key == ""⟩], 1)

end

/-- `App::insert_data_to_tree`.  The source unwraps `data.as_array()` when
`data` is neither object nor array; that branch is unreachable (the
function is only invoked on the root, which the UI requires to be a
container, and recursively on non-empty objects), so scalars yield no
rows here. -/
def insert_data_to_tree (data : Json) (indentation_counter : Nat) :
    List ValuePair × Nat :=
  match data with
  | .obj es => walk_entries es (indentation_counter + 1)
  | .arr xs => walk_elems xs (indentation_counter + 1)
  | _ => ([], 0)

/-- The "empty representation line" test of
`App::line_at_cursor_without_empty_lines`:
`pair.key == "" && pair.value.is_none()`. -/
def is_empty_line (p : ValuePair) : Bool :=
  p.key == "" && p.value.isNone

/-- `App::line_at_cursor_without_empty_lines`: subtract (saturating) the
number of empty representation lines strictly before the cursor.  The
source loop walks `json_pairs`, breaking at index `line_at_cursor`, so it
counts empty lines among the first `line_at_cursor` pairs (all pairs when
the cursor is beyond the end). -/
def line_at_cursor_without_empty_lines
    (json_pairs : List ValuePair) (line_at_cursor : Nat) : Nat :=
  line_at_cursor - ((json_pairs.take line_at_cursor).countP (fun p => is_empty_line p))

/-! ## Path resolver (`utils/json.rs`)

`find_value_path` (inside `get_current_value_at_position`) threads a
`&mut usize` counter; the model passes the counter explicitly and returns
the updated counter paired with the optional result.  `fvp_entries` /
`fvp_elems` are the source's loops (with the running enumeration index
`i` made explicit). -/

mutual

def find_value_path (current target : Nat) (value : Json) :
    Nat × Option (List Nat × Option String × Json) :=
  match value with
  | .obj es => fvp_entries current target 0 es
  | .arr xs => fvp_elems current target 0 xs
  | _ => (current, none)

def fvp_entries (current target i : Nat) :
    List (String × Json) → Nat × Option (List Nat × Option String × Json)
  | [] => (current, none)
  | (k, v) :: rest =>
    if current = target then (current, some ([i], some k, v))
    else
      if v.isContainer then
        match find_value_path (current + 1) target v with
        | (c2, some (path, fk, fv)) => (c2, some (i :: path, fk, fv))
        | (c2, none) => fvp_entries c2 target (i + 1) rest
      else fvp_entries (current + 1) target (i + 1) rest

def fvp_elems (current target i : Nat) :
    List Json → Nat × Option (List Nat × Option String × Json)
  | [] => (current, none)
  | v :: rest =>
    if current = target ∧ ¬ v.isContainer then (current, some ([i], none, v))
    else
      if v.isContainer then
        match find_value_path current target v with
        | (c2, some (path, fk, fv)) => (c2, some (i :: path, fk, fv))
        | (c2, none) => fvp_elems c2 target (i + 1) rest
      else fvp_elems (current + 1) target (i + 1) rest

end

/-- `serde_json::Map::get` / `get_mut`: value of the (unique) entry with
the given key — first occurrence in the model's association list. -/
def mapGet (k : String) : List (String × Json) → Option Json
  | [] => none
  | (k', v) :: rest => if k' = k then some v else mapGet k rest

/-- `follow_path_to_parent` inside `get_current_value_at_position`: an
empty or singleton path returns the current value; otherwise descend into
the child named by the head index (`map.keys().nth(i)` then `map.get`,
resp. an array bounds check then `arr.get`). -/
def follow_path_to_parent (j : Json) : List Nat → Option Json
  | [] => some j
  | [_] => some j
  | i :: rest =>
    match j with
    | .obj es =>
      match es.get? i with
      | some (k, _) =>
        match mapGet k es with
        | some child => follow_path_to_parent child rest
        | none => none
      | none => none
    | .arr xs =>
      match xs.get? i with
      | some child => follow_path_to_parent child rest
      | none => none
    | _ => none

/-- `get_current_value_at_position` (src/utils/json.rs): run the counting
walk from 0; on success return the parent (via `follow_path_to_parent`),
the key (objects only), the value found and the final path index. -/
def get_current_value_at_position (steps : Nat) (obj : Json) :
    Option Json × Option String × Option Json × Nat :=
  match (find_value_path 0 steps obj).2 with
  | some (path, key, value) =>
    (follow_path_to_parent obj path, key, some value, (path.getLast?).getD 0)
  | none => (none, none, none, 0)

/-! `find_path` inside `get_nested_object_to_insert_into`: identical
counting walk, returning only the index path. -/

mutual

def find_path (current target : Nat) (value : Json) : Nat × Option (List Nat) :=
  match value with
  | .obj es => fp_entries current target 0 es
  | .arr xs => fp_elems current target 0 xs
  | _ => (current, none)

def fp_entries (current target i : Nat) :
    List (String × Json) → Nat × Option (List Nat)
  | [] => (current, none)
  | (_, v) :: rest =>
    if current = target then (current, some [i])
    else
      if v.isContainer then
        match find_path (current + 1) target v with
        | (c2, some path) => (c2, some (i :: path))
        | (c2, none) => fp_entries c2 target (i + 1) rest
      else fp_entries (current + 1) target (i + 1) rest

def fp_elems (current target i : Nat) : List Json → Nat × Option (List Nat)
  | [] => (current, none)
  | v :: rest =>
    if current = target ∧ ¬ v.isContainer then (current, some [i])
    else
      if v.isContainer then
        match find_path current target v with
        | (c2, some path) => (c2, some (i :: path))
        | (c2, none) => fp_elems c2 target (i + 1) rest
      else fp_elems (current + 1) target (i + 1) rest

end

/-- `follow_path` inside `get_nested_object_to_insert_into`, read-only
view: an empty path yields `(None, 0)` (modelled `none`); a singleton
path yields the current node as parent together with its index; otherwise
descend as the source does. -/
def follow_path (j : Json) : List Nat → Option (Json × Nat)
  | [] => none
  | [i] => some (j, i)
  | i :: rest =>
    match j with
    | .obj es =>
      match es.get? i with
      | some (k, _) =>
        match mapGet k es with
        | some child => follow_path child rest
        | none => none
      | none => none
    | .arr xs =>
      match xs.get? i with
      | some child => follow_path child rest
      | none => none
    | _ => none

/-- `get_nested_object_to_insert_into` (src/utils/json.rs), read-only
view of the `(Option<&mut Value>, usize)` result: the parent container at
the resolved path and the child index inside it. -/
def get_nested_object_to_insert_into (steps : Nat) (j : Json) :
    Option (Json × Nat) :=
  match (find_path 0 steps j).2 with
  | some path => follow_path j path
  | none => none

/-- `App::is_inside_array`: whether the container the cursor resolves
into is an array (the adjusted cursor is passed by the caller here; the
source method computes it itself, see `insert_new_data_from_user_input`
below). -/
def is_inside_array (steps : Nat) (j : Json) : Bool :=
  match get_nested_object_to_insert_into steps j with
  | some (v, _) => v.isArrValue
  | none => false

/-! ## Ordered-map operations (`serde_json::Map` with `preserve_order`,
i.e. `IndexMap`) -/

/-- Position of the (unique) entry with the given key. -/
def idx_of_key (k : String) : List (String × Json) → Option Nat
  | [] => none
  | (k', _) :: rest =>
    if k' = k then some 0 else (idx_of_key k rest).map (· + 1)

/-- `Vec::insert` / `IndexMap` shift-insert position semantics on lists;
callers check the bound (`n ≤ length`) that Rust enforces by panicking. -/
def list_insert_at (n : Nat) (a : α) (l : List α) : List α :=
  l.take n ++ a :: l.drop n

/-- `IndexMap::move_index(src, dst)`: the entry at `src` is moved so that
it ends up at index `dst`, the others shifting around it. -/
def move_index (src dst : Nat) (l : List α) : List α :=
  match l.get? src with
  | some a => list_insert_at dst a (l.eraseIdx src)
  | none => l

/-- `IndexMap::insert`: an existing key keeps its position and has its
value replaced; a new key is appended. -/
def map_insert (k : String) (v : Json) (es : List (String × Json)) :
    List (String × Json) :=
  match idx_of_key k es with
  | some p => es.set p (k, v)
  | none => es ++ [(k, v)]

/-- `IndexMap::shift_insert(index, k, v)`: an existing key has its value
replaced and is moved to `index` (panics — `none` — unless
`index < len`); a new key is inserted at `index`, shifting the rest
(panics unless `index ≤ len`). -/
def map_shift_insert (index : Nat) (k : String) (v : Json)
    (es : List (String × Json)) : Option (List (String × Json)) :=
  match idx_of_key k es with
  | some p =>
    if index < es.length then some (move_index p index (es.set p (k, v)))
    else none
  | none =>
    if index ≤ es.length then some (list_insert_at index (k, v) es)
    else none

/-- `map.len() - 2` on `usize`: wraps modulo `2 ^ 64` (release build
semantics; a debug build would abort on underflow, i.e. whenever the
resolved object has fewer than two entries). -/
def usize_wrapping_sub (a b : Nat) : Nat :=
  (a + 2 ^ 64 - b % 2 ^ 64) % 2 ^ 64

/-- The `Value::Object(map)` arm of `insert_new_data_from_user_input`:
`if index > map.len() - 2 { map.insert(key, value) } else
{ map.shift_insert(index + 1, key, value) }`. -/
def object_insert_branch (es : List (String × Json)) (index : Nat)
    (k : String) (v : Json) : Option (List (String × Json)) :=
  if usize_wrapping_sub es.length 2 < index then some (map_insert k v es)
  else map_shift_insert (index + 1) k v es

/-- The mutation `insert_new_data_from_user_input` applies through the
resolved `&mut` handle: object arm above, `values.insert(index + 1, value)`
for arrays (a `Vec::insert` past the end panics), and a silent no-op for
the unreachable scalar arm. -/
def insert_into_resolved (key_text : String) (v : Json) (parent : Json)
    (index : Nat) : Option Json :=
  match parent with
  | .obj es => (object_insert_branch es index key_text v).map Json.obj
  | .arr xs =>
    if index + 1 ≤ xs.length then some (.arr (list_insert_at (index + 1) v xs))
    else none
  | _ => some parent

/-- `follow_path`, mutating view: apply `f` to the node reached by the
path (the parent of the target) and write the result back along the
descent — the functional rendering of mutating through the returned
`&mut Value`.  An empty path, like every dead end, leaves the tree
unchanged (`(None, 0)` in the source ⇒ the caller's `if let` no-ops);
`none` propagates a panic from `f`. -/
def set_value_by_key (k : String) (v : Json) :
    List (String × Json) → List (String × Json)
  | [] => []
  | (k', v') :: rest =>
    if k' = k then (k', v) :: rest else (k', v') :: set_value_by_key k v rest

def follow_path_modify (f : Json → Nat → Option Json) :
    Json → List Nat → Option Json
  | j, [] => some j
  | j, [i] => f j i
  | j, i :: rest =>
    match j with
    | .obj es =>
      match es.get? i with
      | some (k, _) =>
        match mapGet k es with
        | some child =>
          match follow_path_modify f child rest with
          | some child' => some (.obj (set_value_by_key k child' es))
          | none => none
        | none => some j
      | none => some j
    | .arr xs =>
      match xs.get? i with
      | some child =>
        match follow_path_modify f child rest with
        | some child' => some (.arr (xs.set i child'))
        | none => none
      | none => some j
    | _ => some j

/-! ## Free-text type coercion (`insert_new_data_from_user_input` lines
162–181, `update_existing_data_from_user_input` lines 340–354) -/

/-- One optional leading `+` or `-` (both Rust float syntax and, for `-`
only, JSON number syntax start this way; callers pick what they allow). -/
def drop_sign : List Char → List Char
  | '+' :: rest => rest
  | '-' :: rest => rest
  | cs => cs

/-- Exponent part of Rust's float grammar: nothing, or `e`/`E`, an
optional sign and at least one digit, consuming the whole rest. -/
def f64_exp_ok : List Char → Bool
  | [] => true
  | c :: rest =>
    if c = 'e' ∨ c = 'E' then
      let rest2 := drop_sign rest
      !rest2.isEmpty && rest2.all Char.isDigit
    else false

/-- Number part of Rust's float grammar (after the optional sign):
`Count '.'? Count? Exp?` or `'.' Count Exp?`. -/
def f64_number_ok (cs : List Char) : Bool :=
  match cs with
  | '.' :: rest =>
    let s := rest.span Char.isDigit
    !s.1.isEmpty && f64_exp_ok s.2
  | _ =>
    let s := cs.span Char.isDigit
    !s.1.isEmpty &&
      (match s.2 with
       | '.' :: r2 => f64_exp_ok (r2.span Char.isDigit).2
       | r => f64_exp_ok r)

/-- `s.parse::<f64>().is_ok()`: `Sign? ('inf' | 'infinity' | 'nan' |
Number)`, the words case-insensitive. -/
def rust_parses_f64 (s : String) : Bool :=
  let cs := drop_sign s.data
  let low := cs.map Char.toLower
  low == "inf".data || low == "infinity".data || low == "nan".data ||
    f64_number_ok cs

/-- `s.parse::<bool>().is_ok()`: exactly the literals. -/
def rust_parses_bool (s : String) : Bool :=
  s == "true" || s == "false"

/-- Exponent of the JSON number grammar: nothing, or `e`/`E`, optional
sign, at least one digit to the end. -/
def json_exp_only : List Char → Bool
  | [] => true
  | c :: rest =>
    if c = 'e' ∨ c = 'E' then
      let rest2 := drop_sign rest
      !rest2.isEmpty && rest2.all Char.isDigit
    else false

/-- Fraction-then-exponent tail of the JSON number grammar. -/
def json_frac_exp : List Char → Bool
  | [] => true
  | '.' :: rest =>
    let s := rest.span Char.isDigit
    !s.1.isEmpty && json_exp_only s.2
  | cs => json_exp_only cs

/-- The strict JSON number grammar serde's `Number: FromStr` accepts:
`-? (0 | [1-9][0-9]*) frac? exp?` (no leading `+`, no `NaN`/`inf`;
serde's additional finite-range check on float literals is not modelled —
no claim here exercises it). -/
def json_number_ok (cs : List Char) : Bool :=
  let cs1 := match cs with | '-' :: rest => rest | cs => cs
  match cs1 with
  | [] => false
  | '0' :: rest => json_frac_exp rest
  | c :: _ =>
    c.isDigit && json_frac_exp (cs1.span Char.isDigit).2

/-- `s.parse::<serde_json::Number>()`, keeping the accepted literal text
(serde may canonicalize the printed form; the claims only build numbers
from already-canonical literals). -/
def json_number_from_str (s : String) : Option String :=
  if json_number_ok s.data then some s else none

/-- The retyping `match` of `insert_new_data_from_user_input`:
`serde_json::to_value` of the input text is always `Value::String`, so
only the string arm is live.  `none` models the panic of the
`.unwrap()` on `s.parse::<serde_json::Number>()` when the f64 probe
succeeded but the JSON number grammar rejects the text. -/
def coerce_insert (s : String) : Option Json :=
  if rust_parses_f64 s then (json_number_from_str s).map Json.num
  else if rust_parses_bool s then some (.bool (s == "true"))
  else some (.str s)

/-- Same retyping on the update path, with the extra `s == "null"` arm. -/
def coerce_update (s : String) : Option Json :=
  if rust_parses_f64 s then (json_number_from_str s).map Json.num
  else if rust_parses_bool s then some (.bool (s == "true"))
  else if s = "null" then some .null
  else some (.str s)

/-- `App::insert_new_data_from_user_input`, state-to-state: the app's
`json_pairs` field equals the flattener's output for the current tree
(the draw loop re-runs `insert_data_to_tree` before input is handled).
Validation first (silent no-op `some j`), then coercion (`none` = panic),
then resolve-and-mutate (an unresolved cursor is a silent no-op).  File
persistence and UI reporting are outside the model. -/
def insert_new_data_from_user_input (line_at_cursor : Nat)
    (key_text value_text : String) (j : Json) : Option Json :=
  let json_pairs := (insert_data_to_tree j 0).1
  let steps := line_at_cursor_without_empty_lines json_pairs line_at_cursor
  let invalid :=
    if is_inside_array steps j then value_text = ""
    else key_text = "" ∨ value_text = ""
  if invalid then some j
  else
    match coerce_insert value_text with
    | none => none
    | some v =>
      match (find_path 0 steps j).2 with
      | none => some j
      | some path => follow_path_modify (insert_into_resolved key_text v) j path

/-! ## Viewport / scroll controller (`App::handle_main_view_messages`)

Only the fields the handler reads or writes are modelled;
`vertical_scroll_state` is ratatui display state (`set_vertical_scroll_state`
writes it and nothing reads it back), so it is omitted. -/

/-- The cursor/scroll slice of `struct App`. -/
structure AppView where
  line_at_cursor : Nat
  vertical_scroll : Nat
  scrolled_so_far : Nat
  lines_count : Nat
  viewport_lines_count : Nat
deriving Repr, DecidableEq

/-- The `MainViewActions` this handler receives. -/
inductive MainViewActions where
  | MoveDown | MoveUp | MoveToTop | MoveToBottom
  | MoveHalfPageDown | MoveHalfPageUp
deriving Repr, DecidableEq

/-- `App::is_current_line_at_viewport_end_with_offset` (offset always
`Some(5)` at the call site; an offset larger than `lines_count` is
replaced by 0). -/
def is_current_line_at_viewport_end_with_offset (s : AppView) (offset : Nat) : Bool :=
  let o := if offset > s.lines_count then 0 else offset
  decide (s.line_at_cursor ≥ (s.viewport_lines_count + s.scrolled_so_far) - o)

/-- `App::is_current_line_at_viewport_start_with_offset`. -/
def is_current_line_at_viewport_start_with_offset (s : AppView) (offset : Nat) : Bool :=
  let o := if offset > s.lines_count then 0 else offset
  decide (s.line_at_cursor ≤ s.scrolled_so_far + o)

/-- `App::handle_main_view_messages`.  Subtractions on `usize`:
`saturating_sub` is `Nat` subtraction; the one plain subtraction
`lines_count - line_at_cursor - 1` (MoveHalfPageDown overshoot arm) is
also rendered as `Nat` subtraction — it cannot underflow while the cursor
stays below `lines_count` (a debug build would abort otherwise).  The
`MoveHalfPageUp` else-arm dispatches `MoveToTop` through `self.update`;
its body is inlined, guard included. -/
def handle_main_view_messages (s : AppView) (action : MainViewActions) : AppView :=
  match action with
  | .MoveDown =>
    if s.line_at_cursor + 1 < s.lines_count then
      let s1 := { s with line_at_cursor := s.line_at_cursor + 1 }
      if is_current_line_at_viewport_end_with_offset s1 5 then
        { s1 with vertical_scroll := s1.vertical_scroll + 1,
                  scrolled_so_far := s1.vertical_scroll + 1 }
      else s1
    else s
  | .MoveUp =>
    let s1 := { s with line_at_cursor := s.line_at_cursor - 1 }
    if is_current_line_at_viewport_start_with_offset s1 5 then
      { s1 with vertical_scroll := s1.vertical_scroll - 1,
                scrolled_so_far := s1.vertical_scroll - 1 }
    else s1
  | .MoveToTop =>
    if s.lines_count = 0 then s
    else { s with line_at_cursor := 0, vertical_scroll := 0, scrolled_so_far := 0 }
  | .MoveToBottom =>
    if s.lines_count = 0 then s
    else
      { s with line_at_cursor := s.lines_count - 1,
               vertical_scroll := s.lines_count - s.viewport_lines_count,
               scrolled_so_far := s.lines_count - s.viewport_lines_count }
  | .MoveHalfPageDown =>
    if s.lines_count = 0 then s
    else if s.line_at_cursor < s.lines_count - s.viewport_lines_count / 2 then
      { s with line_at_cursor := s.line_at_cursor + s.viewport_lines_count / 2,
               vertical_scroll := s.vertical_scroll + s.viewport_lines_count / 2,
               scrolled_so_far := s.scrolled_so_far + s.viewport_lines_count / 2 }
    else
      { s with line_at_cursor :=
                 s.line_at_cursor + (s.lines_count - s.line_at_cursor - 1),
               vertical_scroll :=
                 s.lines_count - (s.viewport_lines_count - s.viewport_lines_count / 2),
               scrolled_so_far :=
                 s.lines_count - (s.viewport_lines_count - s.viewport_lines_count / 2) }
  | .MoveHalfPageUp =>
    if s.lines_count = 0 then s
    else if s.viewport_lines_count / 2 < s.line_at_cursor then
      { s with line_at_cursor := s.line_at_cursor - s.viewport_lines_count / 2,
               vertical_scroll := s.vertical_scroll - s.viewport_lines_count / 2,
               scrolled_so_far := s.vertical_scroll - s.viewport_lines_count / 2 }
    else
      if s.lines_count = 0 then s
      else { s with line_at_cursor := 0, vertical_scroll := 0, scrolled_so_far := 0 }

/-- The cursor/scroll fields of `App::default()` (`line_at_cursor: 0`,
`vertical_scroll: 0`, `scrolled_so_far: 0`), with `lines_count` and
`viewport_lines_count` as set by the draw pass. -/
def initView (total_rows viewport_height : Nat) : AppView :=
  ⟨0, 0, 0, total_rows, viewport_height⟩

/-! ## Search match recomputation (`draw_pairs_widget`, main_view.rs)

Only the `search_matches` bookkeeping of the render loop is modelled:
per row, the key test (before the array-label renaming, so with the raw
`ValuePair` key), then — for rows that carry a value — the value test
with the "already matched by key" dedup against `search_matches.last()`. -/

/-- Rust `str::contains` on the model's character lists: some position
offers the needle as a prefix. -/
def list_contains_sub (needle : List Char) : List Char → Bool
  | [] => needle.isEmpty
  | c :: rest => needle.isPrefixOf (c :: rest) || list_contains_sub needle rest

/-- `hay.contains(needle)` for strings. -/
def str_contains (hay needle : String) : Bool :=
  list_contains_sub needle.data hay.data

/-- `str::to_lowercase`.  `Char.toLower` maps only ASCII; the full
Unicode lowercase mapping is not modelled (the two agree on every input
appearing in this development). -/
def str_to_lowercase (s : String) : String :=
  ⟨s.data.map Char.toLower⟩

/-- JSON string escaping of `serde_json`'s compact `Display`: `"` and
`\` get a backslash, the five short control escapes are used, all other
control characters become `\u00XX`. -/
def hex_digit (n : Nat) : Char :=
  if n < 10 then Char.ofNat (48 + n) else Char.ofNat (87 + n)

def escape_json_char (c : Char) : List Char :=
  if c = '"' then ['\\', '"']
  else if c = '\\' then ['\\', '\\']
  else if c = '\x08' then ['\\', 'b']
  else if c = '\x0c' then ['\\', 'f']
  else if c = '\n' then ['\\', 'n']
  else if c = '\r' then ['\\', 'r']
  else if c = '\t' then ['\\', 't']
  else if c.toNat < 32 then
    ['\\', 'u', '0', '0', hex_digit (c.toNat / 16), hex_digit (c.toNat % 16)]
  else [c]

/-! `json_to_string` is `value.to_string()`: serde_json's compact
`Display` for `Value` (numbers print their literal here, matching the
representation choice above). -/

mutual

def json_to_string : Json → String
  | .null => "null"
  | .bool true => "true"
  | .bool false => "false"
  | .num lit => lit
  | .str s => ⟨'"' :: (s.data.map escape_json_char).flatten ++ ['"']⟩
  | .arr xs => "[" ++ json_to_string_elems xs ++ "]"
  | .obj es => "\x7b" ++ json_to_string_entries es ++ "\x7d"

def json_to_string_elems : List Json → String
  | [] => ""
  | [v] => json_to_string v
  | v :: rest => json_to_string v ++ "," ++ json_to_string_elems rest

def json_to_string_entries : List (String × Json) → String
  | [] => ""
  | [(k, v)] =>
    ⟨'"' :: (k.data.map escape_json_char).flatten ++ ['"']⟩ ++ ":" ++ json_to_string v
  | (k, v) :: rest =>
    ⟨'"' :: (k.data.map escape_json_char).flatten ++ ['"']⟩ ++ ":" ++ json_to_string v
      ++ "," ++ json_to_string_entries rest

end

/-- One pass of the render loop of `draw_pairs_widget` restricted to its
`search_matches` effect: `acc` is the growing `self.search_matches`,
`i` the `enumerate` index.  Key test:
`!query.is_empty() && pair.key.to_lowercase().contains(query)`;
value test (only on rows with `Some(value)`):
`!query.is_empty() && value.to_string().to_lowercase().contains(query)`,
pushed only when `search_matches.last()` is not already this row. -/
def recompute_matches_aux (query : String) :
    Nat → List Nat → List ValuePair → List Nat
  | _, acc, [] => acc
  | i, acc, p :: rest =>
    let acc1 :=
      if query ≠ "" ∧ str_contains (str_to_lowercase p.key) query = true
      then acc ++ [i] else acc
    let acc2 :=
      match p.value with
      | some v =>
        if query ≠ "" ∧ str_contains (str_to_lowercase (json_to_string v)) query = true
            ∧ acc1.getLast? ≠ some i
        then acc1 ++ [i] else acc1
      | none => acc1
    recompute_matches_aux query (i + 1) acc2 rest

/-- `search_matches` as rebuilt by one `draw_pairs_widget` pass (the loop
starts from `self.search_matches.clear()`). -/
def recompute_matches (pairs : List ValuePair) (query : String) : List Nat :=
  recompute_matches_aux query 0 [] pairs

/-! ## Specification-side functions used by the proofs -/

/-! `resolver_positions` is the sequence of positions the counting walks
of `utils/json.rs` assign, in counter order: every object entry gets a
position (key and subtree), a scalar array element gets a position (no
key), a container array element gets none of its own — only its inside
is numbered. -/

mutual

def resolver_positions : Json → List (Option String × Json)
  | .obj es => res_entries es
  | .arr xs => res_elems xs
  | _ => []

def res_entries : List (String × Json) → List (Option String × Json)
  | [] => []
  | (k, v) :: rest =>
    (some k, v) :: ((if v.isContainer then resolver_positions v else []) ++ res_entries rest)

def res_elems : List Json → List (Option String × Json)
  | [] => []
  | v :: rest =>
    (if v.isContainer then resolver_positions v else [(none, v)]) ++ res_elems rest

end

/-! `no_empty_obj_keys` is display-row model well-formedness (spec §3:
an empty string as key means "no key" and is reserved for array
elements): no object key anywhere in the tree is the empty string. -/

mutual

def no_empty_obj_keys : Json → Bool
  | .obj es => nek_entries es
  | .arr xs => nek_elems xs
  | _ => true

def nek_entries : List (String × Json) → Bool
  | [] => true
  | (k, v) :: rest => !(k == "") && no_empty_obj_keys v && nek_entries rest

def nek_elems : List Json → Bool
  | [] => true
  | v :: rest => no_empty_obj_keys v && nek_elems rest

end

/-- How one display row corresponds to one resolver position: whenever
the row carries a value (a leaf row), the position's value is that same
value.  (Container header rows line up with the container's own position;
they carry no value.) -/
def row_pos_rel (row : ValuePair) (pos : Option String × Json) : Prop :=
  ∀ w, row.value = some w → pos.2 = w

/-- The per-row match predicate of the amended C9: the lowercased key or
the lowercased serialized value contains the query verbatim. -/
def row_matches (query : String) (p : ValuePair) : Bool :=
  str_contains (str_to_lowercase p.key) query ||
    (match p.value with
     | some v => str_contains (str_to_lowercase (json_to_string v)) query
     | none => false)

/-- The match list in per-row form (used to characterize
`recompute_matches`): row `i` contributes `[i]` when it matches, nothing
otherwise. -/
def matches_spec (query : String) : Nat → List ValuePair → List Nat
  | _, [] => []
  | i, p :: rest =>
    (if row_matches query p then [i] else []) ++ matches_spec query (i + 1) rest

/-- The C4 invariant: the scroll mirror field agrees, the cursor sits
inside the viewport window, and the cursor stays on the document. -/
def viewport_invariant (s : AppView) : Prop :=
  s.scrolled_so_far = s.vertical_scroll ∧
  s.vertical_scroll ≤ s.line_at_cursor ∧
  s.line_at_cursor ≤ s.vertical_scroll + s.viewport_lines_count - 1 ∧
  s.line_at_cursor + 1 ≤ s.lines_count

/-- Scenario A/B tree `{"a":1,"b":{"c":2,"d":3},"e":[10,20]}`. -/
def tree6 : Json :=
  .obj [("a", .num "1"),
        ("b", .obj [("c", .num "2"), ("d", .num "3")]),
        ("e", .arr [.num "10", .num "20"])]

/-- The C1 counterexample tree `{"a":[{"x":1}]}`: an array whose element
is an object, so the flattener emits a keyless header row the resolver
never numbers. -/
def treeDrift : Json :=
  .obj [("a", .arr [.obj [("x", .num "1")]])]

/-! ## Theorems -/

/-- The object branch of `walk_data_tree_for_json` is
`insert_data_to_tree` on the object, unfolded (see the flattener
comment). -/
theorem insert_obj_unfold (es : List (String × Json)) (ind : Nat) :
    insert_data_to_tree (.obj es) ind = walk_entries es (ind + 1) := rfl

theorem insert_arr_unfold (xs : List Json) (ind : Nat) :
    insert_data_to_tree (.arr xs) ind = walk_elems xs (ind + 1) := rfl

/-- C2 (counterexample): flattening `{"a":1,"b":{"c":2,"d":3},"e":[10,20]}`
produces 7 rows and a lines count of 7, not the 6 the claim states (the
claim's own row list has 7 entries). -/
theorem flatten_scenarioA_not_six :
    (insert_data_to_tree tree6 0).2 = 7 ∧
    (insert_data_to_tree tree6 0).1.length = 7 ∧
    ¬ (insert_data_to_tree tree6 0).2 = 6 := by
  refine ⟨rfl, rfl, ?_⟩
  decide

/-- C2 (amended): flattening that tree yields exactly the claimed row
sequence — a:1 at depth 1, header b at depth 1, c:2 and d:3 at depth 2,
header e at depth 1, array rows 10 and 20 at depth 2 — with
total_rows = 7. -/
theorem flatten_scenarioA_rows :
    insert_data_to_tree tree6 0 =
      ([⟨1, "a", some (.num "1"), false⟩,
        ⟨1, "b", none, false⟩,
        ⟨2, "c", some (.num "2"), false⟩,
        ⟨2, "d", some (.num "3"), false⟩,
        ⟨1, "e", none, false⟩,
        ⟨2, "", some (.num "10"), true⟩,
        ⟨2, "", some (.num "20"), true⟩], 7) := rfl

/-- C3: an array element that is an object contributes exactly one
header row (its key is empty, array elements being keyless) followed by
the rows of its own children — no extra separator row; and inside an
array walk each element contributes exactly its own walk. -/
theorem array_object_element_header_only (es : List (String × Json))
    (rest : List Json) (ind : Nat) :
    walk_data_tree_for_json "" (.obj es) ind =
      (⟨ind, "", none, false⟩ :: (insert_data_to_tree (.obj es) ind).1,
        1 + (insert_data_to_tree (.obj es) ind).2) ∧
    walk_elems (Json.obj es :: rest) ind =
      ((walk_data_tree_for_json "" (.obj es) ind).1 ++ (walk_elems rest ind).1,
        (walk_data_tree_for_json "" (.obj es) ind).2 + (walk_elems rest ind).2) := by
  constructor
  · cases es with
    | nil => rfl
    | cons e rest' => rfl
  · simp [walk_elems]

/-- C5 (counterexample): on a 100-row document with viewport height 20,
three `MoveHalfPageDown` from the initial state leave `vertical_scroll`
at 30, not 20 — each step adds `viewport_height / 2` to cursor and
scroll alike — and after nine steps the scroll is 90, which exceeds
`total_rows - viewport_height = 80`. -/
theorem half_page_scroll_not_twenty :
    ((List.replicate 3 MainViewActions.MoveHalfPageDown).foldl
        handle_main_view_messages (initView 100 20)).vertical_scroll = 30 ∧
    ¬ ((List.replicate 3 MainViewActions.MoveHalfPageDown).foldl
        handle_main_view_messages (initView 100 20)).vertical_scroll = 20 ∧
    ((List.replicate 9 MainViewActions.MoveHalfPageDown).foldl
        handle_main_view_messages (initView 100 20)).vertical_scroll = 90 ∧
    100 - 20 < 90 := by
  refine ⟨rfl, by decide, rfl, by decide⟩

/-- C5 (amended): three `MoveHalfPageDown` land the cursor at row 30
with scroll offset 30 (cursor and scroll both advance by
`viewport_height / 2` while the guard `cursor < total_rows -
viewport_height / 2` holds); the scroll offset may exceed
`total_rows - viewport_height`; on overshoot (the tenth step) the cursor
is clamped to the last row 99 and the scroll offset is set to
`total_rows - (viewport_height - viewport_height / 2) = 90`, not to a
bottom-flush 80. -/
theorem half_page_scroll_amended :
    ((List.replicate 3 MainViewActions.MoveHalfPageDown).foldl
        handle_main_view_messages (initView 100 20)) = ⟨30, 30, 30, 100, 20⟩ ∧
    ((List.replicate 10 MainViewActions.MoveHalfPageDown).foldl
        handle_main_view_messages (initView 100 20)) = ⟨99, 90, 90, 100, 20⟩ := by
  exact ⟨rfl, rfl⟩

/-- C7 (code evaluated at the failing input): `"NaN"` is accepted by the
`f64` probe, so both coercion paths take the Number arm, whose
`s.parse::<serde_json::Number>().unwrap()` panics — the coercion is not
total.  `"true"`, `"null"` and plain text still follow the claimed
priority order. -/
theorem coercion_nan_panics :
    rust_parses_f64 "NaN" = true ∧
    coerce_insert "NaN" = none ∧
    coerce_update "NaN" = none ∧
    coerce_insert "5" = some (.num "5") ∧
    coerce_insert "true" = some (.bool true) ∧
    coerce_update "null" = some .null ∧
    coerce_insert "null" = some (.str "null") ∧
    coerce_insert "hi" = some (.str "hi") := by
  refine ⟨by decide, rfl, rfl, rfl, rfl, rfl, rfl, rfl⟩

/-- C8 (code evaluated at the failing input): inserting value text
`"NaN"` at cursor row 0 of `{"a":1}` passes validation, then panics in
the number-coercion branch — the session aborts, so the insert path is
not panic-free. -/
theorem insert_nan_input_panics :
    insert_new_data_from_user_input 0 "k" "NaN" (Json.obj [("a", Json.num "1")])
      = none := rfl

/-- C10 (counterexample): inserting a key that already exists at the
cursor row of a single-entry object panics: `map.len() - 2` wraps (a
debug build aborts right here), the `shift_insert(index + 1, ..)` branch
is taken, and `index + 1 = 1` is out of bounds for moving the existing
key in a length-1 map. -/
theorem insert_duplicate_single_entry_panics :
    object_insert_branch [("a", Json.num "1")] 0 "a" (Json.num "2") = none ∧
    insert_new_data_from_user_input 0 "a" "2" (Json.obj [("a", Json.num "1")])
      = none := by
  exact ⟨rfl, rfl⟩

/-- C9 (counterexample): the render loop lowercases only the row side,
never the query, so the uppercase query `"A"` fails to match the key
`"A"` even though the case-insensitive containment the claim describes
holds. -/
theorem search_uppercase_query_never_matches :
    recompute_matches [⟨1, "A", some (Json.num "1"), false⟩] "A" = [] ∧
    str_contains (str_to_lowercase "A") (str_to_lowercase "A") = true ∧
    recompute_matches [⟨1, "A", some (Json.num "1"), false⟩] "a" = [0] := by
  refine ⟨rfl, by decide, rfl⟩

/-- C1 (counterexample): on `{"a":[{"x":1}]}` the flattener's row 1 is
the keyless header of the object array-element (it carries no value), but
the resolver at raw index 1 names the node `x` — the row the flattener
emitted at position 2 — and raw index 2 resolves to nothing.  Row-for-row
resolution at the raw flattened index fails. -/
theorem resolve_flatten_raw_index_mismatch :
    (insert_data_to_tree treeDrift 0).1 =
      [⟨1, "a", none, false⟩, ⟨2, "", none, false⟩,
       ⟨3, "x", some (.num "1"), false⟩] ∧
    (get_current_value_at_position 1 treeDrift).2.2.1 = some (Json.num "1") ∧
    (get_current_value_at_position 1 treeDrift).2.1 = some "x" ∧
    (get_current_value_at_position 2 treeDrift).2.2.1 = none := by
  exact ⟨rfl, rfl, rfl, rfl⟩

/-! Helper lemmas about the ordered-map primitives. -/

theorem usize_wrapping_sub_two (n : Nat) (h2 : 2 ≤ n) (hlt : n < 2 ^ 64) :
    usize_wrapping_sub n 2 = n - 2 := by
  unfold usize_wrapping_sub
  have h : n + 2 ^ 64 - 2 % 2 ^ 64 = (n - 2) + 1 * 2 ^ 64 := by
    have : (2 : Nat) % 2 ^ 64 = 2 := by norm_num
    omega
  rw [h, Nat.add_mul_mod_self_right, Nat.mod_eq_of_lt (by omega)]

theorem usize_wrapping_sub_one_two :
    usize_wrapping_sub 1 2 = 2 ^ 64 - 1 := by
  unfold usize_wrapping_sub
  norm_num

theorem list_insert_at_length (n : Nat) (a : α) (l : List α) :
    (list_insert_at n a l).length = l.length + 1 := by
  unfold list_insert_at
  simp only [List.length_append, List.length_take, List.length_cons, List.length_drop]
  omega

theorem list_insert_at_of_length (a : α) (l : List α) :
    list_insert_at l.length a l = l ++ [a] := by
  unfold list_insert_at
  rw [List.take_length, List.drop_length]

theorem idx_of_key_some (k : String) :
    ∀ (es : List (String × Json)) (p : Nat), idx_of_key k es = some p →
      p < es.length ∧ ∃ v, es.get? p = some (k, v) := by
  intro es
  induction es with
  | nil => intro p h; simp [idx_of_key] at h
  | cons e rest ih =>
    intro p h
    obtain ⟨k', v'⟩ := e
    simp only [idx_of_key] at h
    split at h
    · rename_i hk'
      cases h
      exact ⟨Nat.succ_pos _, v', by simp [hk']⟩
    · rw [Option.map_eq_some'] at h
      obtain ⟨q, hq, rfl⟩ := h
      obtain ⟨hlt, v, hv⟩ := ih q hq
      exact ⟨by simpa using Nat.succ_lt_succ hlt, v, by simpa using hv⟩

theorem list_set_same : ∀ (l : List α) (p : Nat) (a : α),
    l.get? p = some a → l.set p a = l := by
  intro l
  induction l with
  | nil => intro p a h; simp at h
  | cons x rest ih =>
    intro p a h
    cases p with
    | zero => simp at h; simp [h]
    | succ q =>
      simp at h
      simp [ih q a (by simpa using h)]

theorem list_insert_at_perm (n : Nat) (a : α) (l : List α) :
    (list_insert_at n a l).Perm (a :: l) := by
  unfold list_insert_at
  have h := @List.perm_middle α a (List.take n l) (List.drop n l)
  rwa [List.take_append_drop] at h

theorem perm_cons_eraseIdx (l : List α) (p : Nat) (a : α)
    (h : l.get? p = some a) : l.Perm (a :: l.eraseIdx p) := by
  have hp : p < l.length := (List.get?_eq_some.mp h).1
  have hget : l[p] = a := by
    have := (List.get?_eq_some.mp h).2
    simpa using this
  have hsplit : l = List.take p l ++ a :: List.drop (p + 1) l := by
    conv_lhs => rw [← List.take_append_drop p l]
    rw [List.drop_eq_getElem_cons hp, hget]
  rw [List.eraseIdx_eq_take_drop_succ]
  nth_rewrite 1 [hsplit]
  exact List.perm_middle

theorem move_index_perm (src dst : Nat) (l : List α) (a : α)
    (h : l.get? src = some a) : (move_index src dst l).Perm l := by
  simp only [move_index, h]
  exact (list_insert_at_perm dst a (l.eraseIdx src)).trans
    (perm_cons_eraseIdx l src a h).symm

theorem idx_of_key_of_mem (k : String) :
    ∀ es : List (String × Json), k ∈ es.map Prod.fst →
      ∃ p, idx_of_key k es = some p := by
  intro es
  induction es with
  | nil => intro h; simp at h
  | cons e rest ih =>
    intro h
    obtain ⟨k', v'⟩ := e
    by_cases hk' : k' = k
    · exact ⟨0, by simp [idx_of_key, hk']⟩
    · have : k ∈ rest.map Prod.fst := by
        simp at h
        rcases h with h | h
        · exact absurd h.symm hk'
        · simpa using h
      obtain ⟨p, hp⟩ := ih this
      exact ⟨p + 1, by simp [idx_of_key, hk', hp]⟩

/-- C6: resolving to an Object parent, inserting a key not already
present: if the resolved index is the last entry the pair is appended at
the end, otherwise it is inserted at `index + 1` with all other entries
keeping their order (an order-preserving insert-at); and the Scenario B
run `insert_after(row=0, "x", "5")` on `{"a":1,"b":{"c":2,"d":3},"e":[10,20]}`
yields object key order `[a, x, b, e]` with `"x": 5` typed as a Number. -/
theorem insert_after_object_fresh (es : List (String × Json)) (index : Nat)
    (k : String) (v : Json)
    (hlt : es.length < 2 ^ 64) (hidx : index < es.length)
    (hk : idx_of_key k es = none) :
    object_insert_branch es index k v =
      some (if index = es.length - 1 then es ++ [(k, v)]
            else list_insert_at (index + 1) (k, v) es) ∧
    insert_new_data_from_user_input 0 "x" "5" tree6 =
      some (.obj [("a", .num "1"), ("x", .num "5"),
                  ("b", .obj [("c", .num "2"), ("d", .num "3")]),
                  ("e", .arr [.num "10", .num "20"])]) := by
  refine ⟨?_, rfl⟩
  simp only [object_insert_branch, map_shift_insert, map_insert, hk]
  by_cases h2 : 2 ≤ es.length
  · rw [usize_wrapping_sub_two es.length h2 hlt]
    by_cases hlast : index = es.length - 1
    · rw [if_pos (show es.length - 2 < index by omega), if_pos hlast]
    · rw [if_neg (show ¬ es.length - 2 < index by omega),
        if_pos (show index + 1 ≤ es.length by omega), if_neg hlast]
  · have h1 : es.length = 1 := by omega
    have h0 : index = 0 := by omega
    subst h0
    have hins := list_insert_at_of_length (k, v) es
    rw [h1] at hins
    rw [h1, usize_wrapping_sub_one_two,
      if_neg (show ¬ 2 ^ 64 - 1 < 0 by omega),
      if_pos (show 0 + 1 ≤ 1 by omega),
      if_pos (show 0 = 1 - 1 by omega), hins]

/-- Witness for `insert_after_object_fresh` at a two-entry object,
index 0, fresh key `"z"`. -/
theorem insert_after_object_fresh_witness :
    ([("a", Json.num "1"), ("b", Json.num "2")] : List (String × Json)).length < 2 ^ 64 ∧
    0 < ([("a", Json.num "1"), ("b", Json.num "2")] : List (String × Json)).length ∧
    idx_of_key "z" [("a", Json.num "1"), ("b", Json.num "2")] = none ∧
    (object_insert_branch [("a", Json.num "1"), ("b", Json.num "2")] 0 "z" Json.null =
      some (if 0 = ([("a", Json.num "1"), ("b", Json.num "2")] : List (String × Json)).length - 1
            then [("a", Json.num "1"), ("b", Json.num "2")] ++ [("z", Json.null)]
            else list_insert_at (0 + 1) ("z", Json.null)
              [("a", Json.num "1"), ("b", Json.num "2")]) ∧
      insert_new_data_from_user_input 0 "x" "5" tree6 =
        some (.obj [("a", .num "1"), ("x", .num "5"),
                    ("b", .obj [("c", .num "2"), ("d", .num "3")]),
                    ("e", .arr [.num "10", .num "20"])])) :=
  ⟨by decide, by decide, rfl,
    insert_after_object_fresh [("a", Json.num "1"), ("b", Json.num "2")] 0 "z" Json.null
      (by decide) (by decide) rfl⟩

/-- C10 (amended): on a resolved Object parent with at least two entries,
inserting a key already present keeps keys unique and the entry count
unchanged — the existing entry is replaced in place by the append-branch
`map.insert`, or repositioned (a permutation of the keys) by the
`shift_insert` branch.  (With a single entry the operation panics, see
the counterexample.) -/
theorem insert_duplicate_key_preserves_uniqueness
    (es : List (String × Json)) (index : Nat) (k : String) (v : Json)
    (h2 : 2 ≤ es.length) (hlt : es.length < 2 ^ 64)
    (hidx : index < es.length) (hk : k ∈ es.map Prod.fst)
    (hnd : (es.map Prod.fst).Nodup) :
    ∃ es', object_insert_branch es index k v = some es' ∧
      (es'.map Prod.fst).Perm (es.map Prod.fst) ∧
      (es'.map Prod.fst).Nodup ∧ es'.length = es.length := by
  obtain ⟨p, hp⟩ := idx_of_key_of_mem k es hk
  obtain ⟨hplt, v0, hv0⟩ := idx_of_key_some k es p hp
  have hkeys : (es.set p (k, v)).map Prod.fst = es.map Prod.fst := by
    rw [List.map_set]
    apply list_set_same
    rw [List.get?_map, hv0]
    rfl
  simp only [object_insert_branch, map_shift_insert, map_insert, hp]
  rw [usize_wrapping_sub_two es.length h2 hlt]
  by_cases hbr : es.length - 2 < index
  · rw [if_pos hbr]
    refine ⟨es.set p (k, v), rfl, ?_, ?_, by simp⟩
    · rw [hkeys]
    · rw [hkeys]; exact hnd
  · rw [if_neg hbr, if_pos (show index + 1 < es.length by omega)]
    have hget1 : (es.set p (k, v)).get? p = some (k, v) :=
      List.get?_set_eq_of_lt (k, v) hplt
    have hperm : (move_index p (index + 1) (es.set p (k, v))).Perm (es.set p (k, v)) :=
      move_index_perm p (index + 1) (es.set p (k, v)) (k, v) hget1
    have hperm2 :
        ((move_index p (index + 1) (es.set p (k, v))).map Prod.fst).Perm
          (es.map Prod.fst) := by
      have h' := hperm.map Prod.fst
      rwa [hkeys] at h'
    refine ⟨move_index p (index + 1) (es.set p (k, v)), rfl, hperm2,
      hperm2.symm.nodup hnd, ?_⟩
    rw [hperm.length_eq, List.length_set]

/-- Witness for `insert_duplicate_key_preserves_uniqueness` at a
two-entry object, index 0, existing key `"b"`. -/
theorem insert_duplicate_key_preserves_uniqueness_witness :
    2 ≤ ([("a", Json.num "1"), ("b", Json.num "2")] : List (String × Json)).length ∧
    ([("a", Json.num "1"), ("b", Json.num "2")] : List (String × Json)).length < 2 ^ 64 ∧
    0 < ([("a", Json.num "1"), ("b", Json.num "2")] : List (String × Json)).length ∧
    "b" ∈ ([("a", Json.num "1"), ("b", Json.num "2")] : List (String × Json)).map Prod.fst ∧
    (([("a", Json.num "1"), ("b", Json.num "2")] : List (String × Json)).map Prod.fst).Nodup ∧
    (∃ es', object_insert_branch [("a", Json.num "1"), ("b", Json.num "2")] 0 "b" Json.null
        = some es' ∧
      (es'.map Prod.fst).Perm
        (([("a", Json.num "1"), ("b", Json.num "2")] : List (String × Json)).map Prod.fst) ∧
      (es'.map Prod.fst).Nodup ∧
      es'.length = ([("a", Json.num "1"), ("b", Json.num "2")] : List (String × Json)).length) :=
  ⟨by decide, by decide, by decide, by decide, by decide,
    insert_duplicate_key_preserves_uniqueness
      [("a", Json.num "1"), ("b", Json.num "2")] 0 "b" Json.null
      (by decide) (by decide) (by decide) (by decide) (by decide)⟩

/-! Helper lemmas for the search-match characterization. -/

theorem getLast?_ne_of_lt (acc : List Nat) (i : Nat)
    (h : ∀ j ∈ acc, j < i) : acc.getLast? ≠ some i := by
  cases hl : acc.getLast? with
  | none => simp
  | some x =>
    have hx : x ∈ acc := by
      rw [List.getLast?_eq_getElem?] at hl
      exact List.get?_mem (by simpa using hl)
    have := h x hx
    simp only [ne_eq, Option.some.injEq]
    omega

theorem recompute_matches_aux_eq (query : String) (hq : query ≠ "") :
    ∀ (pairs : List ValuePair) (i : Nat) (acc : List Nat),
      (∀ j ∈ acc, j < i) →
      recompute_matches_aux query i acc pairs = acc ++ matches_spec query i pairs := by
  intro pairs
  induction pairs with
  | nil =>
    intro i acc _
    simp [recompute_matches_aux, matches_spec]
  | cons p rest ih =>
    intro i acc hacc
    simp only [recompute_matches_aux, matches_spec]
    by_cases hkb : str_contains (str_to_lowercase p.key) query = true
    · rw [if_pos ⟨hq, hkb⟩]
      have hrow : row_matches query p = true := by
        simp [row_matches, hkb]
      rw [if_pos hrow]
      have hlast : (acc ++ [i]).getLast? = some i := List.getLast?_concat acc
      have hnext : ∀ j ∈ acc ++ [i], j < i + 1 := by
        intro j hj
        rcases List.mem_append.mp hj with hj | hj
        · have := hacc j hj; omega
        · simp at hj; omega
      cases hv : p.value with
      | none =>
        dsimp only
        rw [ih (i + 1) (acc ++ [i]) hnext]
        simp
      | some v =>
        dsimp only
        rw [if_neg (by
          rintro ⟨-, -, hne⟩
          exact hne hlast)]
        rw [ih (i + 1) (acc ++ [i]) hnext]
        simp
    · rw [if_neg (by rintro ⟨-, hkb'⟩; exact hkb hkb')]
      have hnext : ∀ j ∈ acc, j < i + 1 := by
        intro j hj; have := hacc j hj; omega
      cases hv : p.value with
      | none =>
        dsimp only
        have hrow : ¬ row_matches query p = true := by
          simp [row_matches, hkb, hv]
        rw [if_neg hrow, ih (i + 1) acc hnext]
        simp
      | some v =>
        dsimp only
        by_cases hvb : str_contains (str_to_lowercase (json_to_string v)) query = true
        · rw [if_pos ⟨hq, hvb, getLast?_ne_of_lt acc i hacc⟩]
          have hrow : row_matches query p = true := by
            simp [row_matches, hkb, hv, hvb]
          rw [if_pos hrow]
          have hnext' : ∀ j ∈ acc ++ [i], j < i + 1 := by
            intro j hj
            rcases List.mem_append.mp hj with hj | hj
            · have := hacc j hj; omega
            · simp at hj; omega
          rw [ih (i + 1) (acc ++ [i]) hnext']
          simp
        · rw [if_neg (by rintro ⟨-, hvb', -⟩; exact hvb hvb')]
          have hrow : ¬ row_matches query p = true := by
            simp [row_matches, hkb, hv, hvb]
          rw [if_neg hrow, ih (i + 1) acc hnext]
          simp

theorem matches_spec_mem (query : String) :
    ∀ (pairs : List ValuePair) (i j : Nat),
      j ∈ matches_spec query i pairs ↔
        i ≤ j ∧ ∃ p, pairs.get? (j - i) = some p ∧ row_matches query p = true := by
  intro pairs
  induction pairs with
  | nil => intro i j; simp [matches_spec]
  | cons p rest ih =>
    intro i j
    simp only [matches_spec, List.mem_append]
    constructor
    · rintro (h | h)
      · by_cases hm : row_matches query p = true
        · rw [if_pos hm] at h
          simp at h
          subst h
          exact ⟨le_refl _, p, by simp, hm⟩
        · rw [if_neg hm] at h
          simp at h
      · obtain ⟨hij, p', hp', hm'⟩ := (ih (i + 1) j).mp h
        refine ⟨by omega, p', ?_, hm'⟩
        have hji : j - i = (j - (i + 1)) + 1 := by omega
        rw [hji]
        simpa using hp'
    · rintro ⟨hij, p', hp', hm'⟩
      rcases Nat.eq_or_lt_of_le hij with hji | hji
      · left
        have h0 : j - i = 0 := by omega
        rw [h0] at hp'
        simp at hp'
        rw [if_pos (hp' ▸ hm')]
        simp [hji]
      · right
        refine (ih (i + 1) j).mpr ⟨by omega, p', ?_, hm'⟩
        have hji' : j - i = (j - (i + 1)) + 1 := by omega
        rw [hji'] at hp'
        simpa using hp'

theorem matches_spec_sorted (query : String) :
    ∀ (pairs : List ValuePair) (i : Nat),
      (matches_spec query i pairs).Pairwise (· < ·) ∧
      ∀ j ∈ matches_spec query i pairs, i ≤ j := by
  intro pairs
  induction pairs with
  | nil => intro i; simp [matches_spec]
  | cons p rest ih =>
    intro i
    obtain ⟨hpw, hlb⟩ := ih (i + 1)
    constructor
    · simp only [matches_spec]
      by_cases hm : row_matches query p = true
      · rw [if_pos hm]
        simp only [List.singleton_append]
        exact List.Pairwise.cons (fun j hj => by have := hlb j hj; omega) hpw
      · rw [if_neg hm]
        simpa using hpw
    · intro j hj
      simp only [matches_spec, List.mem_append] at hj
      rcases hj with hj | hj
      · by_cases hm : row_matches query p = true
        · rw [if_pos hm] at hj
          simp at hj
          omega
        · rw [if_neg hm] at hj
          simp at hj
      · have := hlb j hj; omega

/-- C9 (amended): for a non-empty query, a row index is recorded in
`search_matches` exactly when the row's lowercased key or lowercased
serialized value contains the query verbatim (the query itself is never
lowercased — see the counterexample for an uppercase query); the matches
are strictly increasing, so they are in row order and each row
contributes at most one entry even when both its key and value match. -/
theorem recompute_matches_spec (pairs : List ValuePair) (query : String)
    (hq : query ≠ "") :
    (∀ j, j ∈ recompute_matches pairs query ↔
      ∃ p, pairs.get? j = some p ∧ row_matches query p = true) ∧
    (recompute_matches pairs query).Pairwise (· < ·) := by
  have heq : recompute_matches pairs query = matches_spec query 0 pairs := by
    have h := recompute_matches_aux_eq query hq pairs 0 [] (by simp)
    simpa [recompute_matches] using h
  rw [heq]
  refine ⟨fun j => ?_, (matches_spec_sorted query pairs 0).1⟩
  rw [matches_spec_mem]
  simp

/-- Witness for `recompute_matches_spec` on a one-row list and query
`"a"`. -/
theorem recompute_matches_spec_witness :
    ("a" : String) ≠ "" ∧
    ((∀ j, j ∈ recompute_matches [⟨1, "Apple", some (Json.num "1"), false⟩] "a" ↔
      ∃ p, [(⟨1, "Apple", some (Json.num "1"), false⟩ : ValuePair)].get? j = some p ∧
        row_matches "a" p = true) ∧
    (recompute_matches [⟨1, "Apple", some (Json.num "1"), false⟩] "a").Pairwise (· < ·)) :=
  ⟨by decide, recompute_matches_spec [⟨1, "Apple", some (Json.num "1"), false⟩] "a" (by decide)⟩

/-! Viewport invariant preservation. -/

theorem handle_preserves_counts (s : AppView) (a : MainViewActions) :
    (handle_main_view_messages s a).lines_count = s.lines_count ∧
    (handle_main_view_messages s a).viewport_lines_count = s.viewport_lines_count := by
  cases a <;>
    simp only [handle_main_view_messages] <;>
    (repeat' split) <;> simp

theorem handle_preserves_invariant (s : AppView) (a : MainViewActions)
    (hH : 0 < s.viewport_lines_count)
    (h : viewport_invariant s) :
    viewport_invariant (handle_main_view_messages s a) := by
  obtain ⟨h1, h2, h3, h4⟩ := h
  have hN : 0 < s.lines_count := by omega
  cases a <;>
    simp only [handle_main_view_messages,
      is_current_line_at_viewport_end_with_offset,
      is_current_line_at_viewport_start_with_offset,
      viewport_invariant, decide_eq_true_eq] <;>
    (repeat' split) <;>
    simp_all <;> omega

theorem foldl_preserves_invariant :
    ∀ (acts : List MainViewActions) (s : AppView),
      0 < s.viewport_lines_count → viewport_invariant s →
      viewport_invariant (acts.foldl handle_main_view_messages s) ∧
      (acts.foldl handle_main_view_messages s).lines_count = s.lines_count := by
  intro acts
  induction acts with
  | nil => intro s _ h; exact ⟨h, rfl⟩
  | cons a rest ih =>
    intro s hH h
    have hc := handle_preserves_counts s a
    have h' := handle_preserves_invariant s a hH h
    have := ih (handle_main_view_messages s a) (by omega) h'
    simp only [List.foldl_cons]
    exact ⟨this.1, by omega⟩

/-- C4: from the initial state, for every document with at least one row,
every viewport height of at least one visible row and every sequence of
Move operations, `vertical_scroll ≤ line_at_cursor ≤ vertical_scroll +
viewport_lines_count - 1` holds after the sequence (every prefix of a
sequence is itself a sequence, so this is "after every step"), and the
cursor never exceeds `total_rows - 1`. -/
theorem viewport_clamp (total_rows viewport_height : Nat)
    (hN : 0 < total_rows) (hH : 0 < viewport_height)
    (acts : List MainViewActions) :
    (acts.foldl handle_main_view_messages (initView total_rows viewport_height)).vertical_scroll
        ≤ (acts.foldl handle_main_view_messages (initView total_rows viewport_height)).line_at_cursor ∧
    (acts.foldl handle_main_view_messages (initView total_rows viewport_height)).line_at_cursor
        ≤ (acts.foldl handle_main_view_messages (initView total_rows viewport_height)).vertical_scroll
          + viewport_height - 1 ∧
    (acts.foldl handle_main_view_messages (initView total_rows viewport_height)).line_at_cursor
        ≤ total_rows - 1 := by
  have hinit : viewport_invariant (initView total_rows viewport_height) := by
    simp [viewport_invariant, initView]
    omega
  obtain ⟨⟨g1, g2, g3, g4⟩, g5⟩ :=
    foldl_preserves_invariant acts (initView total_rows viewport_height) (by simpa [initView]) hinit
  have hvp : ∀ (acts' : List MainViewActions),
      (acts'.foldl handle_main_view_messages (initView total_rows viewport_height)).viewport_lines_count
        = viewport_height := by
    intro acts'
    induction acts' using List.reverseRecOn with
    | nil => rfl
    | append_singleton l a ihl =>
      rw [List.foldl_append]
      simp [(handle_preserves_counts _ a).2, ihl]
  have hv := hvp acts
  refine ⟨g2, ?_, ?_⟩
  · rw [hv] at g3; exact g3
  · rw [show (initView total_rows viewport_height).lines_count = total_rows from rfl] at g5
    omega

/-- Witness for `viewport_clamp`: 100 rows, viewport height 20, a mixed
move sequence. -/
theorem viewport_clamp_witness :
    0 < 100 ∧ 0 < 20 ∧
    (([MainViewActions.MoveDown, .MoveHalfPageDown, .MoveToBottom, .MoveUp,
        .MoveHalfPageUp].foldl handle_main_view_messages (initView 100 20)).vertical_scroll
        ≤ (([MainViewActions.MoveDown, .MoveHalfPageDown, .MoveToBottom, .MoveUp,
        .MoveHalfPageUp].foldl handle_main_view_messages (initView 100 20))).line_at_cursor ∧
    (([MainViewActions.MoveDown, .MoveHalfPageDown, .MoveToBottom, .MoveUp,
        .MoveHalfPageUp].foldl handle_main_view_messages (initView 100 20))).line_at_cursor
        ≤ (([MainViewActions.MoveDown, .MoveHalfPageDown, .MoveToBottom, .MoveUp,
        .MoveHalfPageUp].foldl handle_main_view_messages (initView 100 20))).vertical_scroll
          + 20 - 1 ∧
    (([MainViewActions.MoveDown, .MoveHalfPageDown, .MoveToBottom, .MoveUp,
        .MoveHalfPageUp].foldl handle_main_view_messages (initView 100 20))).line_at_cursor
        ≤ 100 - 1) :=
  ⟨by decide, by decide,
    viewport_clamp 100 20 (by decide) (by decide)
      [MainViewActions.MoveDown, .MoveHalfPageDown, .MoveToBottom, .MoveUp, .MoveHalfPageUp]⟩

/-! Characterization of the counting walk `find_value_path` against the
position sequence `resolver_positions`: out-of-range targets yield `none`
and advance the counter by the number of positions. -/

mutual

theorem fvp_none (j : Json) (c t : Nat)
    (h : ¬ (c ≤ t ∧ t < c + (resolver_positions j).length)) :
    find_value_path c t j = (c + (resolver_positions j).length, none) := by
  cases j with
  | obj es =>
    simp only [find_value_path, resolver_positions]
    exact fvp_entries_none es c t 0 (by simpa [resolver_positions] using h)
  | arr xs =>
    simp only [find_value_path, resolver_positions]
    exact fvp_elems_none xs c t 0 (by simpa [resolver_positions] using h)
  | null => simp [find_value_path, resolver_positions]
  | bool b => simp [find_value_path, resolver_positions]
  | num lit => simp [find_value_path, resolver_positions]
  | str s => simp [find_value_path, resolver_positions]

theorem fvp_entries_none (es : List (String × Json)) (c t i : Nat)
    (h : ¬ (c ≤ t ∧ t < c + (res_entries es).length)) :
    fvp_entries c t i es = (c + (res_entries es).length, none) := by
  cases es with
  | nil => simp [fvp_entries, res_entries]
  | cons e rest =>
    obtain ⟨k, v⟩ := e
    by_cases hcont : v.isContainer = true
    · have hlen : (res_entries ((k, v) :: rest)).length
          = 1 + (resolver_positions v).length + (res_entries rest).length := by
        simp [res_entries, hcont]
        omega
      rw [hlen] at h
      have hct : ¬ c = t := fun hc => h ⟨le_of_eq hc, by omega⟩
      simp only [fvp_entries]
      rw [if_neg hct, if_pos hcont]
      rw [fvp_none v (c + 1) t (fun hx => h ⟨by omega, by omega⟩)]
      dsimp only
      rw [fvp_entries_none rest (c + 1 + (resolver_positions v).length) t (i + 1)
        (fun hx => h ⟨by omega, by omega⟩), hlen]
      simp only [Prod.mk.injEq, and_true]
      omega
    · have hlen : (res_entries ((k, v) :: rest)).length
          = 1 + (res_entries rest).length := by
        simp [res_entries, hcont]
        omega
      rw [hlen] at h
      have hct : ¬ c = t := fun hc => h ⟨le_of_eq hc, by omega⟩
      simp only [fvp_entries]
      rw [if_neg hct, if_neg hcont]
      rw [fvp_entries_none rest (c + 1) t (i + 1)
        (fun hx => h ⟨by omega, by omega⟩), hlen]
      simp only [Prod.mk.injEq, and_true]
      omega

theorem fvp_elems_none (xs : List Json) (c t i : Nat)
    (h : ¬ (c ≤ t ∧ t < c + (res_elems xs).length)) :
    fvp_elems c t i xs = (c + (res_elems xs).length, none) := by
  cases xs with
  | nil => simp [fvp_elems, res_elems]
  | cons v rest =>
    by_cases hcont : v.isContainer = true
    · have hlen : (res_elems (v :: rest)).length
          = (resolver_positions v).length + (res_elems rest).length := by
        simp [res_elems, hcont]
      rw [hlen] at h
      simp only [fvp_elems]
      rw [if_neg (by rintro ⟨-, hc⟩; exact hc hcont), if_pos hcont]
      rw [fvp_none v c t (fun hx => h ⟨by omega, by omega⟩)]
      dsimp only
      rw [fvp_elems_none rest (c + (resolver_positions v).length) t (i + 1)
        (fun hx => h ⟨by omega, by omega⟩), hlen]
      simp only [Prod.mk.injEq, and_true]
      omega
    · have hlen : (res_elems (v :: rest)).length
          = 1 + (res_elems rest).length := by
        simp [res_elems, hcont]
        omega
      rw [hlen] at h
      have hct : ¬ (c = t ∧ ¬ v.isContainer = true) :=
        fun hx => h ⟨le_of_eq hx.1, by omega⟩
      simp only [fvp_elems]
      rw [if_neg hct, if_neg hcont]
      rw [fvp_elems_none rest (c + 1) t (i + 1)
        (fun hx => h ⟨by omega, by omega⟩), hlen]
      simp only [Prod.mk.injEq, and_true]
      omega

end

/-! In-range targets of the counting walk return exactly the key/value of
the corresponding resolver position. -/

mutual

theorem fvp_some (j : Json) (c t : Nat) (hc : c ≤ t) (k? : Option String) (v : Json)
    (hget : (resolver_positions j).get? (t - c) = some (k?, v)) :
    ∃ c' p, find_value_path c t j = (c', some (p, k?, v)) := by
  cases j with
  | obj es =>
    simp only [resolver_positions] at hget
    simp only [find_value_path]
    exact fvp_entries_some es c t 0 hc k? v hget
  | arr xs =>
    simp only [resolver_positions] at hget
    simp only [find_value_path]
    exact fvp_elems_some xs c t 0 hc k? v hget
  | null => simp [resolver_positions] at hget
  | bool b => simp [resolver_positions] at hget
  | num lit => simp [resolver_positions] at hget
  | str s => simp [resolver_positions] at hget

theorem fvp_entries_some (es : List (String × Json)) (c t i : Nat) (hc : c ≤ t)
    (k? : Option String) (v : Json)
    (hget : (res_entries es).get? (t - c) = some (k?, v)) :
    ∃ c' p, fvp_entries c t i es = (c', some (p, k?, v)) := by
  cases es with
  | nil => simp [res_entries] at hget
  | cons e rest =>
    obtain ⟨k, v0⟩ := e
    by_cases hct : c = t
    · subst hct
      simp only [res_entries, Nat.sub_self, List.get?_cons_zero, Option.some.injEq,
        Prod.mk.injEq] at hget
      obtain ⟨hk, hv⟩ := hget
      refine ⟨c, [i], ?_⟩
      simp only [fvp_entries]
      simp [hk, hv]
    · have hct' : c < t := lt_of_le_of_ne hc hct
      have hsubt : t - c = (t - (c + 1)) + 1 := by omega
      rw [hsubt] at hget
      simp only [res_entries, List.get?_cons_succ] at hget
      by_cases hcont : v0.isContainer = true
      · rw [if_pos hcont] at hget
        by_cases hin : t - (c + 1) < (resolver_positions v0).length
        · rw [List.get?_append hin] at hget
          obtain ⟨c', p, hp⟩ := fvp_some v0 (c + 1) t (by omega) k? v hget
          refine ⟨c', i :: p, ?_⟩
          simp only [fvp_entries]
          rw [if_neg hct, if_pos hcont, hp]
        · rw [List.get?_append_right (by omega)] at hget
          have hnone := fvp_none v0 (c + 1) t (by intro hx; omega)
          obtain ⟨c', p, hp⟩ := fvp_entries_some rest
            (c + 1 + (resolver_positions v0).length) t (i + 1) (by omega) k? v (by
              have harith : t - (c + 1) - (resolver_positions v0).length
                  = t - (c + 1 + (resolver_positions v0).length) := by omega
              rwa [harith] at hget)
          refine ⟨c', p, ?_⟩
          simp only [fvp_entries]
          rw [if_neg hct, if_pos hcont, hnone]
          dsimp only
          exact hp
      · rw [if_neg hcont, List.nil_append] at hget
        obtain ⟨c', p, hp⟩ := fvp_entries_some rest (c + 1) t (i + 1) (by omega) k? v hget
        refine ⟨c', p, ?_⟩
        simp only [fvp_entries]
        rw [if_neg hct, if_neg hcont]
        exact hp

theorem fvp_elems_some (xs : List Json) (c t i : Nat) (hc : c ≤ t)
    (k? : Option String) (v : Json)
    (hget : (res_elems xs).get? (t - c) = some (k?, v)) :
    ∃ c' p, fvp_elems c t i xs = (c', some (p, k?, v)) := by
  cases xs with
  | nil => simp [res_elems] at hget
  | cons v0 rest =>
    by_cases hcont : v0.isContainer = true
    · simp only [res_elems] at hget
      rw [if_pos hcont] at hget
      by_cases hin : t - c < (resolver_positions v0).length
      · rw [List.get?_append hin] at hget
        obtain ⟨c', p, hp⟩ := fvp_some v0 c t hc k? v hget
        refine ⟨c', i :: p, ?_⟩
        simp only [fvp_elems]
        rw [if_neg (by rintro ⟨-, hne⟩; exact hne hcont), if_pos hcont, hp]
      · rw [List.get?_append_right (by omega)] at hget
        have hnone := fvp_none v0 c t (by intro hx; omega)
        obtain ⟨c', p, hp⟩ := fvp_elems_some rest
          (c + (resolver_positions v0).length) t (i + 1) (by omega) k? v (by
            have harith : t - c - (resolver_positions v0).length
                = t - (c + (resolver_positions v0).length) := by omega
            rwa [harith] at hget)
        refine ⟨c', p, ?_⟩
        simp only [fvp_elems]
        rw [if_neg (by rintro ⟨-, hne⟩; exact hne hcont), if_pos hcont, hnone]
        dsimp only
        exact hp
    · simp only [res_elems] at hget
      rw [if_neg hcont, List.singleton_append] at hget
      by_cases hct : c = t
      · subst hct
        simp only [Nat.sub_self, List.get?_cons_zero, Option.some.injEq,
          Prod.mk.injEq] at hget
        obtain ⟨hk, hv⟩ := hget
        subst hv
        subst hk
        refine ⟨c, [i], ?_⟩
        simp [fvp_elems, hcont]
      · have hct' : c < t := lt_of_le_of_ne hc hct
        have hsubt : t - c = (t - (c + 1)) + 1 := by omega
        rw [hsubt, List.get?_cons_succ] at hget
        obtain ⟨c', p, hp⟩ := fvp_elems_some rest (c + 1) t (i + 1) (by omega) k? v hget
        refine ⟨c', p, ?_⟩
        simp only [fvp_elems]
        rw [if_neg (fun hx => hct hx.1), if_neg hcont]
        exact hp

end

/-! Alignment of the flattener's non-empty rows with the resolver's
position sequence. -/

theorem forall₂_append_both {R : α → β → Prop} :
    ∀ {l₁ : List α} {l₂ : List β} {l₃ : List α} {l₄ : List β},
      List.Forall₂ R l₁ l₂ → List.Forall₂ R l₃ l₄ →
      List.Forall₂ R (l₁ ++ l₃) (l₂ ++ l₄) := by
  intro l₁ l₂ l₃ l₄ h1 h2
  induction h1 with
  | nil => simpa using h2
  | cons hr _ ih => exact List.Forall₂.cons hr ih

theorem forall₂_get?_right {R : α → β → Prop} :
    ∀ {l₁ : List α} {l₂ : List β}, List.Forall₂ R l₁ l₂ →
      ∀ (n : Nat) (a : α), l₁.get? n = some a →
        ∃ b, l₂.get? n = some b ∧ R a b := by
  intro l₁ l₂ h
  induction h with
  | nil => intro n a h'; simp at h'
  | cons hr hrest ih =>
    intro n a h'
    cases n with
    | zero =>
      simp at h'
      subst h'
      exact ⟨_, by simp, hr⟩
    | succ m =>
      simp only [List.get?_cons_succ] at h' ⊢
      exact ih m a h'

mutual

theorem align_entries (es : List (String × Json)) (ind : Nat)
    (h : nek_entries es = true) :
    List.Forall₂ row_pos_rel
      ((walk_entries es ind).1.filter (fun p => !(is_empty_line p)))
      (res_entries es) := by
  cases es with
  | nil => simp [walk_entries, res_entries]
  | cons e rest =>
    obtain ⟨k, v⟩ := e
    simp only [nek_entries, Bool.and_eq_true] at h
    obtain ⟨⟨hk, hv⟩, hrest⟩ := h
    have hk' : k ≠ "" := by
      intro hke
      rw [hke] at hk
      simp at hk
    simp only [walk_entries, res_entries]
    rw [List.filter_append]
    have hshape : (some k, v) :: ((if v.isContainer then resolver_positions v else [])
          ++ res_entries rest)
        = ((some k, v) :: (if v.isContainer then resolver_positions v else []))
          ++ res_entries rest := by
      simp
    rw [hshape]
    exact forall₂_append_both (align_walk_obj k hk' v ind hv) (align_entries rest ind hrest)

theorem align_elems (xs : List Json) (ind : Nat) (h : nek_elems xs = true) :
    List.Forall₂ row_pos_rel
      ((walk_elems xs ind).1.filter (fun p => !(is_empty_line p)))
      (res_elems xs) := by
  cases xs with
  | nil => simp [walk_elems, res_elems]
  | cons v rest =>
    simp only [nek_elems, Bool.and_eq_true] at h
    obtain ⟨hv, hrest⟩ := h
    simp only [walk_elems, res_elems]
    rw [List.filter_append]
    exact forall₂_append_both (align_walk_arr v ind hv) (align_elems rest ind hrest)

theorem align_walk_obj (k : String) (hk : k ≠ "") (v : Json) (ind : Nat)
    (h : no_empty_obj_keys v = true) :
    List.Forall₂ row_pos_rel
      ((walk_data_tree_for_json k v ind).1.filter (fun p => !(is_empty_line p)))
      ((some k, v) :: (if v.isContainer then resolver_positions v else [])) := by
  have hkeep : (!(is_empty_line ⟨ind, k, none, false⟩)) = true := by
    simp [is_empty_line]
    intro hke
    exact absurd hke hk
  cases v with
  | obj es =>
    simp only [no_empty_obj_keys] at h
    simp only [walk_data_tree_for_json]
    by_cases hlen : es.length = 0
    · rw [if_pos hlen]
      obtain rfl := List.length_eq_zero.mp hlen
      try dsimp only
      rw [@List.filter_cons_of_pos _ (fun p => !(is_empty_line p)) _ _ hkeep]
      simp only [List.filter_nil, Json.isContainer, if_pos rfl]
      refine List.Forall₂.cons (fun w hw => by simp at hw) ?_
      simp [resolver_positions, res_entries]
    · rw [if_neg hlen]
      try dsimp only
      rw [@List.filter_cons_of_pos _ (fun p => !(is_empty_line p)) _ _ hkeep]
      refine List.Forall₂.cons (fun w hw => by simp at hw) ?_
      simp only [Json.isContainer, if_pos rfl]
      have := align_entries es (ind + 1) h
      simpa [resolver_positions] using this
  | arr xs =>
    simp only [no_empty_obj_keys] at h
    simp only [walk_data_tree_for_json]
    try dsimp only
    rw [@List.filter_cons_of_pos _ (fun p => !(is_empty_line p)) _ _ hkeep]
    refine List.Forall₂.cons (fun w hw => by simp at hw) ?_
    simp only [Json.isContainer, if_pos rfl]
    have := align_elems xs (ind + 1) h
    simpa [resolver_positions] using this
  | null =>
    simp only [walk_data_tree_for_json]
    try dsimp only
    rw [@List.filter_cons_of_pos _ (fun p => !(is_empty_line p)) _ _ (by simp [is_empty_line])]
    exact List.Forall₂.cons (fun w hw => by simpa using hw) (by simp [Json.isContainer])
  | bool b =>
    simp only [walk_data_tree_for_json]
    try dsimp only
    rw [@List.filter_cons_of_pos _ (fun p => !(is_empty_line p)) _ _ (by simp [is_empty_line])]
    exact List.Forall₂.cons (fun w hw => by simpa using hw) (by simp [Json.isContainer])
  | num lit =>
    simp only [walk_data_tree_for_json]
    try dsimp only
    rw [@List.filter_cons_of_pos _ (fun p => !(is_empty_line p)) _ _ (by simp [is_empty_line])]
    exact List.Forall₂.cons (fun w hw => by simpa using hw) (by simp [Json.isContainer])
  | str s =>
    simp only [walk_data_tree_for_json]
    try dsimp only
    rw [@List.filter_cons_of_pos _ (fun p => !(is_empty_line p)) _ _ (by simp [is_empty_line])]
    exact List.Forall₂.cons (fun w hw => by simpa using hw) (by simp [Json.isContainer])

theorem align_walk_arr (v : Json) (ind : Nat) (h : no_empty_obj_keys v = true) :
    List.Forall₂ row_pos_rel
      ((walk_data_tree_for_json "" v ind).1.filter (fun p => !(is_empty_line p)))
      (if v.isContainer then resolver_positions v else [(none, v)]) := by
  have hdrop : ¬ (!(is_empty_line ⟨ind, "", none, false⟩)) = true := by
    simp [is_empty_line]
  cases v with
  | obj es =>
    simp only [no_empty_obj_keys] at h
    simp only [walk_data_tree_for_json]
    by_cases hlen : es.length = 0
    · rw [if_pos hlen]
      obtain rfl := List.length_eq_zero.mp hlen
      try dsimp only
      rw [@List.filter_cons_of_neg _ (fun p => !(is_empty_line p)) _ _ hdrop]
      simp [Json.isContainer, resolver_positions, res_entries]
    · rw [if_neg hlen]
      try dsimp only
      rw [@List.filter_cons_of_neg _ (fun p => !(is_empty_line p)) _ _ hdrop]
      simp only [Json.isContainer, if_pos rfl]
      have := align_entries es (ind + 1) h
      simpa [resolver_positions] using this
  | arr xs =>
    simp only [no_empty_obj_keys] at h
    simp only [walk_data_tree_for_json]
    try dsimp only
    rw [@List.filter_cons_of_neg _ (fun p => !(is_empty_line p)) _ _ hdrop]
    simp only [Json.isContainer, if_pos rfl]
    have := align_elems xs (ind + 1) h
    simpa [resolver_positions] using this
  | null =>
    simp only [walk_data_tree_for_json]
    try dsimp only
    rw [@List.filter_cons_of_pos _ (fun p => !(is_empty_line p)) _ _ (by simp [is_empty_line])]
    exact List.Forall₂.cons (fun w hw => by simpa using hw) (by simp [Json.isContainer])
  | bool b =>
    simp only [walk_data_tree_for_json]
    try dsimp only
    rw [@List.filter_cons_of_pos _ (fun p => !(is_empty_line p)) _ _ (by simp [is_empty_line])]
    exact List.Forall₂.cons (fun w hw => by simpa using hw) (by simp [Json.isContainer])
  | num lit =>
    simp only [walk_data_tree_for_json]
    try dsimp only
    rw [@List.filter_cons_of_pos _ (fun p => !(is_empty_line p)) _ _ (by simp [is_empty_line])]
    exact List.Forall₂.cons (fun w hw => by simpa using hw) (by simp [Json.isContainer])
  | str s =>
    simp only [walk_data_tree_for_json]
    try dsimp only
    rw [@List.filter_cons_of_pos _ (fun p => !(is_empty_line p)) _ _ (by simp [is_empty_line])]
    exact List.Forall₂.cons (fun w hw => by simpa using hw) (by simp [Json.isContainer])

end

theorem countP_add_countP_not (p : α → Bool) :
    ∀ l : List α, l.countP p + l.countP (fun a => !(p a)) = l.length := by
  intro l
  induction l with
  | nil => simp
  | cons x rest ih =>
    by_cases hx : p x = true
    · simp [List.countP_cons, hx]
      omega
    · simp [List.countP_cons, hx]
      omega

theorem filter_get?_countP (p : α → Bool) :
    ∀ (l : List α) (i : Nat) (a : α), l.get? i = some a → p a = true →
      (l.filter p).get? ((l.take i).countP p) = some a := by
  intro l
  induction l with
  | nil => intro i a h; simp at h
  | cons x rest ih =>
    intro i a h hpa
    cases i with
    | zero =>
      simp only [List.get?_cons_zero, Option.some.injEq] at h
      subst h
      simp [List.filter_cons_of_pos hpa]
    | succ n =>
      simp only [List.get?_cons_succ] at h
      rw [List.take_succ_cons, List.countP_cons]
      by_cases hx : p x = true
      · rw [List.filter_cons_of_pos hx]
        simp only [hx, if_pos]
        have := ih n a h hpa
        simpa [Nat.add_comm] using this
      · rw [List.filter_cons_of_neg hx]
        simp only [hx]
        simpa using ih n a h hpa

/-- C1 (amended): resolving through the separator-adjusted index — the
raw row index minus the number of keyless, valueless separator rows
before it, exactly what `line_at_cursor_without_empty_lines` computes —
names the flattened node: for every tree without empty object keys and
every flattened row that carries a value, `get_current_value_at_position`
at the adjusted index returns exactly that value.  (At the raw index the
correspondence fails, see the counterexample; container header rows carry
no value and resolve to the container itself.) -/
theorem resolve_flatten_duality (j : Json) (hj : no_empty_obj_keys j = true)
    (i : Nat) (row : ValuePair) (w : Json)
    (hrow : (insert_data_to_tree j 0).1.get? i = some row)
    (hw : row.value = some w) :
    (get_current_value_at_position
        (line_at_cursor_without_empty_lines (insert_data_to_tree j 0).1 i) j).2.2.1
      = some w := by
  have hne : (!(is_empty_line row)) = true := by
    simp [is_empty_line, hw]
  have halign : List.Forall₂ row_pos_rel
      ((insert_data_to_tree j 0).1.filter (fun p => !(is_empty_line p)))
      (resolver_positions j) := by
    cases j with
    | obj es =>
      simp only [no_empty_obj_keys] at hj
      simp only [insert_data_to_tree, resolver_positions]
      exact align_entries es 1 hj
    | arr xs =>
      simp only [no_empty_obj_keys] at hj
      simp only [insert_data_to_tree, resolver_positions]
      exact align_elems xs 1 hj
    | null => simp [insert_data_to_tree, resolver_positions]
    | bool b => simp [insert_data_to_tree, resolver_positions]
    | num lit => simp [insert_data_to_tree, resolver_positions]
    | str s => simp [insert_data_to_tree, resolver_positions]
  have hilen : i < (insert_data_to_tree j 0).1.length := (List.get?_eq_some.mp hrow).1
  have hadj : line_at_cursor_without_empty_lines (insert_data_to_tree j 0).1 i
      = ((insert_data_to_tree j 0).1.take i).countP (fun p => !(is_empty_line p)) := by
    unfold line_at_cursor_without_empty_lines
    have h1 : (((insert_data_to_tree j 0).1).take i).length = i := by
      rw [List.length_take]
      omega
    have h2 := countP_add_countP_not (fun p => is_empty_line p)
      (((insert_data_to_tree j 0).1).take i)
    omega
  rw [hadj]
  have hfilter := filter_get?_countP (fun p => !(is_empty_line p))
      (insert_data_to_tree j 0).1 i row hrow hne
  obtain ⟨⟨k?, v⟩, hposget, hrel⟩ := forall₂_get?_right halign _ row hfilter
  have hvw : v = w := hrel w hw
  subst hvw
  obtain ⟨c', p, hfvp⟩ := fvp_some j 0 _ (Nat.zero_le _) k? v (by
    rw [Nat.sub_zero]
    exact hposget)
  simp [get_current_value_at_position, hfvp]

/-- Witness for `resolve_flatten_duality` on `{"a":[{"x":1}]}` at row 2
(the leaf `x: 1`, preceded by one separator row, so the adjusted index
is 1). -/
theorem resolve_flatten_duality_witness :
    no_empty_obj_keys treeDrift = true ∧
    (insert_data_to_tree treeDrift 0).1.get? 2
      = some ⟨3, "x", some (Json.num "1"), false⟩ ∧
    (⟨3, "x", some (Json.num "1"), false⟩ : ValuePair).value = some (Json.num "1") ∧
    (get_current_value_at_position
        (line_at_cursor_without_empty_lines (insert_data_to_tree treeDrift 0).1 2)
        treeDrift).2.2.1
      = some (Json.num "1") :=
  ⟨rfl, rfl, rfl,
    resolve_flatten_duality treeDrift rfl 2 ⟨3, "x", some (Json.num "1"), false⟩
      (Json.num "1") rfl rfl⟩
